import Mathlib

/-!
Shallow embedding of `src/src/main.rs` (shadaj/llm-continuations): an
interactive LLM chat client that persists its transcript to a JSONL file
(`conversation_log.jsonl`), records a pending tool call to a sidecar file
(`tool_call.json`), ends the process when the model requests a tool call,
and resumes on restart by synthesizing a tool-result message.

The embedding models:
  * the rig message data model (`Message`, `UserContent`, `AssistantContent`,
    `ToolCall`, `ToolResult`, `OneOrMany`) as used by the source;
  * serialization at the JSON-value level (`Json` trees; the byte-level JSON
    text encoder/decoder is the `serde_json` dependency, outside this repo);
  * `HistoryManager` and its methods (`add_user_message`,
    `handle_tool_call_result`, `handle_completion`, `get_history`);
  * the `main` control flow: transcript load, the resume check, the
    input/request loop and the chunk-stream loop, including the sidecar
    write on a tool-call chunk.

Panics (`unwrap`, `todo!`) are modelled as `Option`/explicit outcome values.
-/

namespace LlmCont

/-- JSON values, modelling `serde_json::Value` at the tree level (numbers as
`Int`; the source never inspects numeric payloads). -/
inductive Json where
  | null : Json
  | bool (b : Bool) : Json
  | num (n : Int) : Json
  | str (s : String) : Json
  | arr (items : List Json) : Json
  | obj (fields : List (String × Json)) : Json

/-- Model of `rig::agent::Text`. -/
structure Text where
  text : String

/-- Model of `rig::message::ToolFunction`: a function name plus structured
JSON arguments. -/
structure ToolFunction where
  name : String
  arguments : Json

/-- Model of `rig::message::ToolCall` as used by the source: an `id`, an
optional `call_id`, and the function payload. -/
structure ToolCall where
  id : String
  call_id : Option String
  function : ToolFunction

/-- Model of `rig::message::ToolResultContent`; the source only ever
constructs the `Text` variant. -/
inductive ToolResultContent where
  | text (t : Text) : ToolResultContent

/-- Model of `rig::OneOrMany`: a non-empty sequence with a distinguished
first element. -/
structure OneOrMany (α : Type) where
  first : α
  rest : List α

/-- Model of `rig::OneOrMany::one`. -/
def OneOrMany.one {α : Type} (a : α) : OneOrMany α := ⟨a, []⟩

/-- Model of `rig::OneOrMany::many`: fails (`Err`, unwrapped to a panic in
the source) on the empty list. -/
def OneOrMany.many {α : Type} : List α → Option (OneOrMany α)
  | [] => none
  | x :: xs => some ⟨x, xs⟩

/-- The underlying list of a `OneOrMany`. -/
def OneOrMany.toList {α : Type} (o : OneOrMany α) : List α := o.first :: o.rest

/-- Model of `rig::message::ToolResult`. -/
structure ToolResult where
  id : String
  call_id : Option String
  content : OneOrMany ToolResultContent

/-- Model of `rig::message::UserContent` as used by the source. -/
inductive UserContent where
  | text (t : Text) : UserContent
  | toolResult (r : ToolResult) : UserContent

/-- Model of `rig::message::AssistantContent` as used by the source. -/
inductive AssistantContent where
  | text (t : Text) : AssistantContent
  | toolCall (c : ToolCall) : AssistantContent

/-- Model of `rig::message::Message`: the closed message union of the
source (user text / user tool-result / assistant text / assistant
tool-call). -/
inductive Message where
  | user (content : OneOrMany UserContent) : Message
  | assistant (id : Option String) (content : OneOrMany AssistantContent) : Message

/-- Serialize an optional string (an `Option<String>` field). -/
def serializeOptStr : Option String → Json
  | none => Json.null
  | some s => Json.str s

/-- Inverse of `serializeOptStr`. -/
def deserializeOptStr : Json → Option (Option String)
  | Json.null => some none
  | Json.str s => some (some s)
  | _ => none

/-- Modelled from the spec: the on-disk encoding of a message is produced by
`serde_json` from rig's derived `Serialize` instances, which are dependency
code not in this repository; §4.1 of the spec requires only a lossless,
line-delimited tagged form. This models one tool-result content item. -/
def serializeToolResultContent : ToolResultContent → Json
  | ToolResultContent.text t => Json.obj [("type", Json.str "text"), ("text", Json.str t.text)]

/-- Inverse of `serializeToolResultContent`. -/
def deserializeToolResultContent : Json → Option ToolResultContent
  | Json.obj [("type", Json.str "text"), ("text", Json.str t)] =>
      some (ToolResultContent.text ⟨t⟩)
  | _ => none

/-- Decode each element of a list, failing if any element fails. -/
def deserializeList {α : Type} (g : Json → Option α) : List Json → Option (List α)
  | [] => some []
  | x :: xs =>
    match g x, deserializeList g xs with
    | some a, some as => some (a :: as)
    | _, _ => none

/-- Serialize a `OneOrMany` as a JSON array (first element then rest). -/
def serializeOneOrMany {α : Type} (f : α → Json) (o : OneOrMany α) : Json :=
  Json.arr (f o.first :: o.rest.map f)

/-- Inverse of `serializeOneOrMany`: a non-empty array. -/
def deserializeOneOrMany {α : Type} (g : Json → Option α) : Json → Option (OneOrMany α)
  | Json.arr (x :: xs) =>
    match g x, deserializeList g xs with
    | some a, some as => some ⟨a, as⟩
    | _, _ => none
  | _ => none

/-- Modelled from the spec: serialization of one user-content item in the
lossless tagged form of §4.1 (the byte-level encoder is `serde_json`). -/
def serializeUserContent : UserContent → Json
  | UserContent.text t => Json.obj [("type", Json.str "text"), ("text", Json.str t.text)]
  | UserContent.toolResult r =>
      Json.obj [("type", Json.str "tool_result"), ("id", Json.str r.id),
        ("call_id", serializeOptStr r.call_id),
        ("content", serializeOneOrMany serializeToolResultContent r.content)]

/-- Inverse of `serializeUserContent`. -/
def deserializeUserContent : Json → Option UserContent
  | Json.obj [("type", Json.str "text"), ("text", Json.str t)] =>
      some (UserContent.text ⟨t⟩)
  | Json.obj [("type", Json.str "tool_result"), ("id", Json.str i),
      ("call_id", cid), ("content", c)] =>
    match deserializeOptStr cid, deserializeOneOrMany deserializeToolResultContent c with
    | some cid', some content => some (UserContent.toolResult ⟨i, cid', content⟩)
    | _, _ => none
  | _ => none

/-- Modelled from the spec: serialization of one assistant-content item in
the lossless tagged form of §4.1; tool-call arguments are embedded as the
JSON value they already are. -/
def serializeAssistantContent : AssistantContent → Json
  | AssistantContent.text t => Json.obj [("type", Json.str "text"), ("text", Json.str t.text)]
  | AssistantContent.toolCall c =>
      Json.obj [("type", Json.str "tool_call"), ("id", Json.str c.id),
        ("call_id", serializeOptStr c.call_id),
        ("function", Json.obj [("name", Json.str c.function.name),
          ("arguments", c.function.arguments)])]

/-- Inverse of `serializeAssistantContent`. -/
def deserializeAssistantContent : Json → Option AssistantContent
  | Json.obj [("type", Json.str "text"), ("text", Json.str t)] =>
      some (AssistantContent.text ⟨t⟩)
  | Json.obj [("type", Json.str "tool_call"), ("id", Json.str i),
      ("call_id", cid),
      ("function", Json.obj [("name", Json.str n), ("arguments", args)])] =>
    match deserializeOptStr cid with
    | some cid' => some (AssistantContent.toolCall ⟨i, cid', ⟨n, args⟩⟩)
    | none => none
  | _ => none

/-- Modelled from the spec: `serde_json::to_string(&message)` as a JSON
value, one message per transcript line (§4.1: a lossless role-tagged form;
the byte-level encoder lives in the `serde_json` dependency). -/
def serializeMessage : Message → Json
  | Message.user content =>
      Json.obj [("role", Json.str "user"),
        ("content", serializeOneOrMany serializeUserContent content)]
  | Message.assistant i content =>
      Json.obj [("role", Json.str "assistant"), ("id", serializeOptStr i),
        ("content", serializeOneOrMany serializeAssistantContent content)]

/-- Inverse of `serializeMessage`, modelling `serde_json::from_str` to a
rig `Message` at the JSON-value level. -/
def deserializeMessage : Json → Option Message
  | Json.obj [("role", Json.str "user"), ("content", c)] =>
    match deserializeOneOrMany deserializeUserContent c with
    | some content => some (Message.user content)
    | none => none
  | Json.obj [("role", Json.str "assistant"), ("id", i), ("content", c)] =>
    match deserializeOptStr i, deserializeOneOrMany deserializeAssistantContent c with
    | some i', some content => some (Message.assistant i' content)
    | _, _ => none
  | _ => none

/-- Model of `HistoryManager<W>` (main.rs lines 20–90): the in-memory
history plus the lines written to the underlying writer (the JSONL file),
each line modelled as its JSON value. -/
structure HistoryManager where
  writer : List Json
  history : List Message

/-- Model of `HistoryManager::new` (fresh empty log). -/
def HistoryManager.new : HistoryManager := ⟨[], []⟩

/-- Model of `HistoryManager::new_with_history`: the writer is opened in
append mode, so no new lines yet; `writer` tracks lines written by this
manager instance. -/
def HistoryManager.new_with_history (history : List Message) : HistoryManager :=
  ⟨[], history⟩

/-- The shared write path of the three append methods (serialize the
message, write it as one line, flush, push onto the in-memory history). -/
def HistoryManager.appendMessage (hm : HistoryManager) (m : Message) : HistoryManager :=
  ⟨hm.writer ++ [serializeMessage m], hm.history ++ [m]⟩

/-- Model of `HistoryManager::add_user_message` (lines 37–48). -/
def HistoryManager.add_user_message (hm : HistoryManager) (text : String) : HistoryManager :=
  hm.appendMessage (Message.user (OneOrMany.one (UserContent.text ⟨text⟩)))

/-- Model of `HistoryManager::handle_tool_call_result` (lines 50–61). -/
def HistoryManager.handle_tool_call_result (hm : HistoryManager) (result : ToolResult) :
    HistoryManager :=
  hm.appendMessage (Message.user (OneOrMany.one (UserContent.toolResult result)))

/-- Model of `rig::streaming::StreamedAssistantContent` as matched by the
source: text, tool-call and final chunks are handled; every other variant
hits `todo!()` and is modelled by `other`. -/
inductive StreamedAssistantContent where
  | text (t : Text) : StreamedAssistantContent
  | toolCall (c : ToolCall) : StreamedAssistantContent
  | final : StreamedAssistantContent
  | other : StreamedAssistantContent

/-- Model of `HistoryManager::handle_completion` (lines 63–85): a text or
tool-call chunk appends one assistant message with `id: None`; a final
chunk appends nothing; any other chunk hits `todo!()` (modelled as
`none`). -/
def HistoryManager.handle_completion (hm : HistoryManager)
    (completion : StreamedAssistantContent) : Option HistoryManager :=
  match completion with
  | StreamedAssistantContent.text t =>
      some (hm.appendMessage (Message.assistant none (OneOrMany.one (AssistantContent.text t))))
  | StreamedAssistantContent.toolCall c =>
      some (hm.appendMessage (Message.assistant none (OneOrMany.one (AssistantContent.toolCall c))))
  | StreamedAssistantContent.final => some hm
  | StreamedAssistantContent.other => none

/-- Model of `HistoryManager::get_history` (lines 87–89):
`OneOrMany::many(self.history.clone()).unwrap()`; `none` models the panic
on an empty history. -/
def HistoryManager.get_history (hm : HistoryManager) : Option (OneOrMany Message) :=
  OneOrMany.many hm.history

/-- Model of the transcript load in `main` (lines 97–111): deserialize
every line, panicking (`none`) on the first line that fails; no partial
prefix is ever produced. -/
def loadHistory : List Json → Option (List Message)
  | [] => some []
  | l :: ls =>
    match deserializeMessage l, loadHistory ls with
    | some m, some ms => some (m :: ms)
    | _, _ => none

/-- One item yielded by `completion_result.next().await`: `Some(Ok(chunk))`
or `Some(Err(e))`; the end of the list models `None`. -/
inductive StreamItem where
  | ok (chunk : StreamedAssistantContent) : StreamItem
  | err (e : String) : StreamItem

/-- How the inner chunk loop (lines 190–220) ends: `endedToolCall` models
`break 'outer` after a tool-call chunk; `awaitingInput` models falling out
of the `while let` (stream exhausted or a `Some(Err(_))` item) and
continuing the outer loop at the input prompt; `panicked` models the
`todo!()` on an unhandled chunk kind. -/
inductive StreamOutcome where
  | awaitingInput : StreamOutcome
  | endedToolCall : StreamOutcome
  | panicked : StreamOutcome

/-- Result of driving the chunk loop: the updated history manager, the
sidecar file state (`tool_call.json` contents as the recorded call), how
the loop ended, and the stream items never pulled. -/
structure StreamResult where
  hm : HistoryManager
  sidecar : Option ToolCall
  outcome : StreamOutcome
  remaining : List StreamItem

/-- Model of the chunk loop `while let Some(Ok(chunk)) = ...` (lines
190–220): a text chunk is appended and the loop continues; a tool-call
chunk first overwrites `tool_call.json` with the call, then appends the
assistant message, then `break 'outer`; a final chunk appends nothing; an
`Err` item ends the loop silently; an unhandled chunk kind panics. -/
def runStream (hm : HistoryManager) (sidecar : Option ToolCall) :
    List StreamItem → StreamResult
  | [] => ⟨hm, sidecar, StreamOutcome.awaitingInput, []⟩
  | StreamItem.err _ :: rest => ⟨hm, sidecar, StreamOutcome.awaitingInput, rest⟩
  | StreamItem.ok (StreamedAssistantContent.text t) :: rest =>
    match hm.handle_completion (StreamedAssistantContent.text t) with
    | some hm1 => runStream hm1 sidecar rest
    | none => ⟨hm, sidecar, StreamOutcome.panicked, rest⟩
  | StreamItem.ok (StreamedAssistantContent.toolCall c) :: rest =>
    match hm.handle_completion (StreamedAssistantContent.toolCall c) with
    | some hm1 => ⟨hm1, some c, StreamOutcome.endedToolCall, rest⟩
    | none => ⟨hm, some c, StreamOutcome.panicked, rest⟩
  | StreamItem.ok StreamedAssistantContent.final :: rest =>
    match hm.handle_completion StreamedAssistantContent.final with
    | some hm1 => runStream hm1 sidecar rest
    | none => ⟨hm, sidecar, StreamOutcome.panicked, rest⟩
  | StreamItem.ok StreamedAssistantContent.other :: rest =>
    ⟨hm, sidecar, StreamOutcome.panicked, rest⟩

/-- Result of the pre-request phase of one outer-loop iteration (lines
160–172): either a completion request is about to be issued with the given
history, or the loop breaks on blank input, or `lines.next().unwrap()`
panicked at end of input. -/
inductive PreResult where
  | request (hm : HistoryManager) (remainingInputs : List String) : PreResult
  | ended (hm : HistoryManager) (remainingInputs : List String) : PreResult
  | panic : PreResult

/-- Model of `line.trim().is_empty()`: `str::trim` strips whitespace from
both ends, so the trimmed string is empty exactly when every character of
the line is whitespace. -/
def trimIsEmpty (s : String) : Bool := s.data.all Char.isWhitespace

/-- Model of lines 160–172: with `resume` set the input prompt is skipped
entirely for this iteration; otherwise one line is read, a blank line
breaks the loop, and a non-blank line is appended as a user message before
the request. -/
def loopPre (hm : HistoryManager) (resume : Bool) (inputs : List String) : PreResult :=
  if resume then PreResult.request hm inputs
  else
    match inputs with
    | [] => PreResult.panic
    | line :: rest =>
      if trimIsEmpty line then PreResult.ended hm rest
      else PreResult.request (hm.add_user_message line) rest

/-- How a whole process run ends. -/
inductive RunOutcome where
  | endedBlank : RunOutcome
  | endedToolCall : RunOutcome
  | panicked : RunOutcome
  | starved : RunOutcome

/-- Result of the outer loop: final history manager and sidecar state, the
history snapshot passed to each completion request (in order), and how the
run ended (`starved` is a model artifact: the supplied list of per-turn
chunk streams ran out). -/
structure LoopResult where
  hm : HistoryManager
  sidecar : Option ToolCall
  requests : List HistoryManager
  outcome : RunOutcome

/-- Model of the `'outer: loop` (lines 160–221). Each iteration runs the
pre-request phase, then issues one completion request consuming one entry
of `streams` (`Except.error` models `gemini.stream(...).await` returning
`Err`, which `unwrap` turns into a panic), then drives the chunk loop; a
tool-call chunk ends the process, a normal end of stream loops back to the
input prompt. -/
def runLoop : List (Except String (List StreamItem)) → HistoryManager →
    Option ToolCall → Bool → List String → LoopResult
  | [], hm, sidecar, resume, inputs =>
    match loopPre hm resume inputs with
    | PreResult.panic => ⟨hm, sidecar, [], RunOutcome.panicked⟩
    | PreResult.ended hm1 _ => ⟨hm1, sidecar, [], RunOutcome.endedBlank⟩
    | PreResult.request hm1 _ => ⟨hm1, sidecar, [hm1], RunOutcome.starved⟩
  | Except.error _ :: _, hm, sidecar, resume, inputs =>
    match loopPre hm resume inputs with
    | PreResult.panic => ⟨hm, sidecar, [], RunOutcome.panicked⟩
    | PreResult.ended hm1 _ => ⟨hm1, sidecar, [], RunOutcome.endedBlank⟩
    | PreResult.request hm1 _ => ⟨hm1, sidecar, [hm1], RunOutcome.panicked⟩
  | Except.ok items :: restStreams, hm, sidecar, resume, inputs =>
    match loopPre hm resume inputs with
    | PreResult.panic => ⟨hm, sidecar, [], RunOutcome.panicked⟩
    | PreResult.ended hm1 _ => ⟨hm1, sidecar, [], RunOutcome.endedBlank⟩
    | PreResult.request hm1 inputs1 =>
      match runStream hm1 sidecar items with
      | ⟨hm2, sc2, StreamOutcome.endedToolCall, _⟩ =>
          ⟨hm2, sc2, [hm1], RunOutcome.endedToolCall⟩
      | ⟨hm2, sc2, StreamOutcome.panicked, _⟩ =>
          ⟨hm2, sc2, [hm1], RunOutcome.panicked⟩
      | ⟨hm2, sc2, StreamOutcome.awaitingInput, _⟩ =>
        let r := runLoop restStreams hm2 sc2 false inputs1
        ⟨r.hm, r.sidecar, hm1 :: r.requests, r.outcome⟩

/-- The tool call at the tail of the transcript, when the last message is
an assistant message whose first content item is a tool call — exactly the
condition checked by lines 137–139. -/
def lastToolCall (history : List Message) : Option ToolCall :=
  match history.getLast? with
  | some (Message.assistant _ content) =>
    match content.first with
    | AssistantContent.toolCall tc => some tc
    | _ => none
  | _ => none

/-- Model of the resume check at process start (lines 137–158): when the
transcript's last message is an assistant tool call, `tool_call.json` is
read (`none` models the `File::open(..).unwrap()` panic when it is
missing) and a tool-result message with the call's `id` and `call_id` is
appended; `resume` is set accordingly. -/
def startupResume (hm : HistoryManager) (toolFile : Option String) :
    Option (HistoryManager × Bool) :=
  match lastToolCall hm.history with
  | some tc =>
    match toolFile with
    | none => none
    | some result =>
        some (hm.handle_tool_call_result
          ⟨tc.id, tc.call_id, OneOrMany.one (ToolResultContent.text ⟨result⟩)⟩, true)
  | none => some (hm, false)

/-- Model of one whole invocation of `main` (lines 92–222): load the
transcript from the persisted lines (panic on a malformed line), run the
resume check against the sidecar file contents, then enter the outer
loop. -/
def mainRun (fileLines : List Json) (toolFile : Option String) (sidecar : Option ToolCall)
    (inputs : List String) (streams : List (Except String (List StreamItem))) :
    Option LoopResult :=
  match loadHistory fileLines with
  | none => none
  | some msgs =>
    match startupResume (HistoryManager.new_with_history msgs) toolFile with
    | none => none
    | some (hm1, resume) => some (runLoop streams hm1 sidecar resume inputs)

/-- Append a whole sequence of messages through the shared write path, in
order. -/
def HistoryManager.appendAll (hm : HistoryManager) (ms : List Message) : HistoryManager :=
  ms.foldl HistoryManager.appendMessage hm

/-- The tool call carried by a single message, when it is an assistant
message whose first content item is a tool call. -/
def msgToolCall : Message → Option ToolCall
  | Message.assistant _ content =>
    match content.first with
    | AssistantContent.toolCall tc => some tc
    | _ => none
  | _ => none

/-- Model of one whole process run starting from persisted state: transcript
`h` and sidecar-file state `sc`. The sidecar file exists exactly when a
call was ever recorded (the program never deletes it); before a restart the
external tool runner overwrites its contents with the result text, modelled
by the `result` parameter. -/
def runOnce (h : List Message) (sc : Option ToolCall) (result : String)
    (inputs : List String) (streams : List (Except String (List StreamItem))) :
    Option LoopResult :=
  match startupResume (HistoryManager.new_with_history h)
      (if sc.isSome then some result else none) with
  | none => none
  | some (hm1, resume) => some (runLoop streams hm1 sc resume inputs)

/-- Persistent states (transcript, sidecar file) reachable by some sequence
of process runs starting from a fresh installation. -/
inductive Reachable : List Message → Option ToolCall → Prop where
  | init : Reachable [] none
  | run (h : List Message) (sc : Option ToolCall) (result : String)
      (inputs : List String) (streams : List (Except String (List StreamItem)))
      (res : LoopResult) :
      Reachable h sc → runOnce h sc result inputs streams = some res →
      Reachable res.hm.history res.sidecar

/-- Concrete tool call used by the example executions below. -/
def exCall : ToolCall :=
  ⟨"id1", some "call1", ⟨"get_weather", Json.obj [("location", Json.str "Paris")]⟩⟩

/-- Concrete user message used by the example executions below. -/
def exUserMsg : Message := Message.user (OneOrMany.one (UserContent.text ⟨"hi"⟩))

/-- Concrete assistant tool-call message used by the example executions
below. -/
def exAsstMsg : Message :=
  Message.assistant none (OneOrMany.one (AssistantContent.toolCall exCall))

/-- Concrete synthesized tool-result message used by the example executions
below. -/
def exResultMsg : Message :=
  Message.user (OneOrMany.one (UserContent.toolResult
    ⟨"id1", some "call1", OneOrMany.one (ToolResultContent.text ⟨"sunny"⟩)⟩))

/-- Expected result of the first example run: user says "hi", the model
answers with a tool call, the process records the call and ends. -/
def exRes1 : LoopResult :=
  ⟨⟨[serializeMessage exUserMsg, serializeMessage exAsstMsg], [exUserMsg, exAsstMsg]⟩,
   some exCall,
   [⟨[serializeMessage exUserMsg], [exUserMsg]⟩],
   RunOutcome.endedToolCall⟩

/-- History manager state after the second example run resumed and appended
the synthesized tool result. -/
def exHm2 : HistoryManager :=
  ⟨[serializeMessage exResultMsg], [exUserMsg, exAsstMsg, exResultMsg]⟩

/-- Expected result of the second example run: resume from the recorded
call, append the tool result, run one quiet turn, then end on blank
input. The sidecar still holds the already-consumed call. -/
def exRes2 : LoopResult :=
  ⟨exHm2, some exCall, [exHm2], RunOutcome.endedBlank⟩

theorem deserializeOptStr_serializeOptStr (s : Option String) :
    deserializeOptStr (serializeOptStr s) = some s := by
  cases s <;> rfl

theorem deserializeToolResultContent_roundtrip (c : ToolResultContent) :
    deserializeToolResultContent (serializeToolResultContent c) = some c := by
  cases c
  rfl

theorem deserializeList_map {α : Type} (f : α → Json) (g : Json → Option α)
    (h : ∀ x, g (f x) = some x) (xs : List α) :
    deserializeList g (xs.map f) = some xs := by
  induction xs with
  | nil => rfl
  | cons x xs ih => simp [deserializeList, h, ih]

theorem deserializeOneOrMany_roundtrip {α : Type} (f : α → Json) (g : Json → Option α)
    (h : ∀ x, g (f x) = some x) (o : OneOrMany α) :
    deserializeOneOrMany g (serializeOneOrMany f o) = some o := by
  cases o with
  | mk first rest =>
    simp [serializeOneOrMany, deserializeOneOrMany, h, deserializeList_map f g h]

theorem deserializeUserContent_roundtrip (c : UserContent) :
    deserializeUserContent (serializeUserContent c) = some c := by
  cases c with
  | text t => cases t; rfl
  | toolResult r =>
    cases r with
    | mk i cid content =>
      simp [serializeUserContent, deserializeUserContent,
        deserializeOptStr_serializeOptStr,
        deserializeOneOrMany_roundtrip serializeToolResultContent
          deserializeToolResultContent deserializeToolResultContent_roundtrip]

theorem deserializeAssistantContent_roundtrip (c : AssistantContent) :
    deserializeAssistantContent (serializeAssistantContent c) = some c := by
  cases c with
  | text t => cases t; rfl
  | toolCall tc =>
    cases tc with
    | mk i cid fn =>
      cases fn
      simp [serializeAssistantContent, deserializeAssistantContent,
        deserializeOptStr_serializeOptStr]

theorem deserializeMessage_roundtrip (m : Message) :
    deserializeMessage (serializeMessage m) = some m := by
  cases m with
  | user content =>
    simp [serializeMessage, deserializeMessage,
      deserializeOneOrMany_roundtrip serializeUserContent deserializeUserContent
        deserializeUserContent_roundtrip]
  | assistant i content =>
    simp [serializeMessage, deserializeMessage,
      deserializeOptStr_serializeOptStr,
      deserializeOneOrMany_roundtrip serializeAssistantContent deserializeAssistantContent
        deserializeAssistantContent_roundtrip]

theorem appendAll_writer (ms : List Message) :
    ∀ hm : HistoryManager, (hm.appendAll ms).writer = hm.writer ++ ms.map serializeMessage := by
  induction ms with
  | nil => intro hm; simp [HistoryManager.appendAll]
  | cons m ms ih =>
    intro hm
    simp [HistoryManager.appendAll] at ih ⊢
    rw [ih (hm.appendMessage m)]
    simp [HistoryManager.appendMessage]

theorem appendAll_history (ms : List Message) :
    ∀ hm : HistoryManager, (hm.appendAll ms).history = hm.history ++ ms := by
  induction ms with
  | nil => intro hm; simp [HistoryManager.appendAll]
  | cons m ms ih =>
    intro hm
    simp [HistoryManager.appendAll] at ih ⊢
    rw [ih (hm.appendMessage m)]
    simp [HistoryManager.appendMessage]

theorem loadHistory_map_serialize (ms : List Message) :
    loadHistory (ms.map serializeMessage) = some ms := by
  induction ms with
  | nil => rfl
  | cons m ms ih => simp [loadHistory, deserializeMessage_roundtrip, ih]

theorem lastToolCall_append (xs : List Message) (m : Message) :
    lastToolCall (xs ++ [m]) = msgToolCall m := by
  cases m with
  | user content => simp [lastToolCall, msgToolCall]
  | assistant i content => simp [lastToolCall, msgToolCall]

theorem runStream_toolCall_inv (items : List StreamItem) :
    ∀ (hm : HistoryManager) (sc : Option ToolCall),
      lastToolCall hm.history = none →
      (∀ tc, lastToolCall (runStream hm sc items).hm.history = some tc →
          (runStream hm sc items).sidecar = some tc)
      ∧ ((runStream hm sc items).outcome = StreamOutcome.awaitingInput →
          lastToolCall (runStream hm sc items).hm.history = none) := by
  induction items with
  | nil =>
    intro hm sc h
    exact ⟨fun tc htc => absurd htc (by simp [runStream, h]), fun _ => h⟩
  | cons item rest ih =>
    intro hm sc h
    cases item with
    | err e => exact ⟨fun tc htc => absurd htc (by simp [runStream, h]), fun _ => h⟩
    | ok chunk =>
      cases chunk with
      | text t =>
        have h1 : lastToolCall (hm.appendMessage
            (Message.assistant none (OneOrMany.one (AssistantContent.text t)))).history = none := by
          simp [HistoryManager.appendMessage, lastToolCall_append, msgToolCall, OneOrMany.one]
        simpa [runStream, HistoryManager.handle_completion] using
          ih (hm.appendMessage (Message.assistant none (OneOrMany.one (AssistantContent.text t))))
            sc h1
      | toolCall c =>
        constructor
        · intro tc htc
          simp [runStream, HistoryManager.handle_completion, HistoryManager.appendMessage,
            lastToolCall_append, msgToolCall, OneOrMany.one] at htc
          simp [runStream, HistoryManager.handle_completion, htc]
        · intro hout
          simp [runStream, HistoryManager.handle_completion] at hout
      | final =>
        simpa [runStream, HistoryManager.handle_completion] using ih hm sc h
      | other =>
        exact ⟨fun tc htc => absurd htc (by simp [runStream, h]),
          fun hout => by simp [runStream] at hout⟩

theorem loopPre_ended_eq (hm : HistoryManager) (resume : Bool) (inputs : List String)
    (hm1 : HistoryManager) (rest : List String)
    (h : loopPre hm resume inputs = PreResult.ended hm1 rest) : hm1 = hm := by
  cases resume with
  | true => simp [loopPre] at h
  | false =>
    cases inputs with
    | nil => simp [loopPre] at h
    | cons line rest2 =>
      by_cases hb : trimIsEmpty line <;> simp [loopPre, hb] at h
      exact h.1.symm

theorem loopPre_request_lastToolCall (hm : HistoryManager) (resume : Bool)
    (inputs : List String) (hm1 : HistoryManager) (inputs1 : List String)
    (h : loopPre hm resume inputs = PreResult.request hm1 inputs1)
    (hpre : lastToolCall hm.history = none) :
    lastToolCall hm1.history = none := by
  cases resume with
  | true =>
    simp [loopPre] at h
    rw [← h.1]
    exact hpre
  | false =>
    cases inputs with
    | nil => simp [loopPre] at h
    | cons line rest2 =>
      by_cases hb : trimIsEmpty line <;> simp [loopPre, hb] at h
      rw [← h.1]
      simp [HistoryManager.add_user_message, HistoryManager.appendMessage,
        lastToolCall_append, msgToolCall]

theorem loopPre_request_nonempty (hm : HistoryManager) (resume : Bool)
    (inputs : List String) (hm1 : HistoryManager) (inputs1 : List String)
    (h : loopPre hm resume inputs = PreResult.request hm1 inputs1)
    (hpre : resume = true → hm.history ≠ []) :
    hm1.history ≠ [] := by
  cases resume with
  | true =>
    simp [loopPre] at h
    rw [← h.1]
    exact hpre rfl
  | false =>
    cases inputs with
    | nil => simp [loopPre] at h
    | cons line rest2 =>
      by_cases hb : trimIsEmpty line <;> simp [loopPre, hb] at h
      rw [← h.1]
      simp [HistoryManager.add_user_message, HistoryManager.appendMessage]

theorem runLoop_nil_panic (hm : HistoryManager) (sc : Option ToolCall) (resume : Bool)
    (inputs : List String) (h : loopPre hm resume inputs = PreResult.panic) :
    runLoop [] hm sc resume inputs = ⟨hm, sc, [], RunOutcome.panicked⟩ := by
  simp [runLoop, h]

theorem runLoop_nil_ended (hm : HistoryManager) (sc : Option ToolCall) (resume : Bool)
    (inputs : List String) (hm1 : HistoryManager) (rest : List String)
    (h : loopPre hm resume inputs = PreResult.ended hm1 rest) :
    runLoop [] hm sc resume inputs = ⟨hm1, sc, [], RunOutcome.endedBlank⟩ := by
  simp [runLoop, h]

theorem runLoop_nil_request (hm : HistoryManager) (sc : Option ToolCall) (resume : Bool)
    (inputs : List String) (hm1 : HistoryManager) (inputs1 : List String)
    (h : loopPre hm resume inputs = PreResult.request hm1 inputs1) :
    runLoop [] hm sc resume inputs = ⟨hm1, sc, [hm1], RunOutcome.starved⟩ := by
  simp [runLoop, h]

theorem runLoop_cons_panic (s : Except String (List StreamItem))
    (ss : List (Except String (List StreamItem))) (hm : HistoryManager)
    (sc : Option ToolCall) (resume : Bool) (inputs : List String)
    (h : loopPre hm resume inputs = PreResult.panic) :
    runLoop (s :: ss) hm sc resume inputs = ⟨hm, sc, [], RunOutcome.panicked⟩ := by
  cases s <;> simp [runLoop, h]

theorem runLoop_cons_ended (s : Except String (List StreamItem))
    (ss : List (Except String (List StreamItem))) (hm : HistoryManager)
    (sc : Option ToolCall) (resume : Bool) (inputs : List String)
    (hm1 : HistoryManager) (rest : List String)
    (h : loopPre hm resume inputs = PreResult.ended hm1 rest) :
    runLoop (s :: ss) hm sc resume inputs = ⟨hm1, sc, [], RunOutcome.endedBlank⟩ := by
  cases s <;> simp [runLoop, h]

theorem runLoop_err_request (e : String) (ss : List (Except String (List StreamItem)))
    (hm : HistoryManager) (sc : Option ToolCall) (resume : Bool) (inputs : List String)
    (hm1 : HistoryManager) (inputs1 : List String)
    (h : loopPre hm resume inputs = PreResult.request hm1 inputs1) :
    runLoop (Except.error e :: ss) hm sc resume inputs =
      ⟨hm1, sc, [hm1], RunOutcome.panicked⟩ := by
  simp [runLoop, h]

theorem runLoop_ok_request_toolCall (items : List StreamItem)
    (ss : List (Except String (List StreamItem))) (hm : HistoryManager)
    (sc : Option ToolCall) (resume : Bool) (inputs : List String)
    (hm1 : HistoryManager) (inputs1 : List String)
    (hm2 : HistoryManager) (sc2 : Option ToolCall) (rem : List StreamItem)
    (h : loopPre hm resume inputs = PreResult.request hm1 inputs1)
    (hrs : runStream hm1 sc items = ⟨hm2, sc2, StreamOutcome.endedToolCall, rem⟩) :
    runLoop (Except.ok items :: ss) hm sc resume inputs =
      ⟨hm2, sc2, [hm1], RunOutcome.endedToolCall⟩ := by
  simp [runLoop, h, hrs]

theorem runLoop_ok_request_panicked (items : List StreamItem)
    (ss : List (Except String (List StreamItem))) (hm : HistoryManager)
    (sc : Option ToolCall) (resume : Bool) (inputs : List String)
    (hm1 : HistoryManager) (inputs1 : List String)
    (hm2 : HistoryManager) (sc2 : Option ToolCall) (rem : List StreamItem)
    (h : loopPre hm resume inputs = PreResult.request hm1 inputs1)
    (hrs : runStream hm1 sc items = ⟨hm2, sc2, StreamOutcome.panicked, rem⟩) :
    runLoop (Except.ok items :: ss) hm sc resume inputs =
      ⟨hm2, sc2, [hm1], RunOutcome.panicked⟩ := by
  simp [runLoop, h, hrs]

theorem runLoop_ok_request_awaiting (items : List StreamItem)
    (ss : List (Except String (List StreamItem))) (hm : HistoryManager)
    (sc : Option ToolCall) (resume : Bool) (inputs : List String)
    (hm1 : HistoryManager) (inputs1 : List String)
    (hm2 : HistoryManager) (sc2 : Option ToolCall) (rem : List StreamItem)
    (h : loopPre hm resume inputs = PreResult.request hm1 inputs1)
    (hrs : runStream hm1 sc items = ⟨hm2, sc2, StreamOutcome.awaitingInput, rem⟩) :
    runLoop (Except.ok items :: ss) hm sc resume inputs =
      ⟨(runLoop ss hm2 sc2 false inputs1).hm, (runLoop ss hm2 sc2 false inputs1).sidecar,
       hm1 :: (runLoop ss hm2 sc2 false inputs1).requests,
       (runLoop ss hm2 sc2 false inputs1).outcome⟩ := by
  simp [runLoop, h, hrs]

theorem runLoop_toolCall_inv (streams : List (Except String (List StreamItem))) :
    ∀ (hm : HistoryManager) (sc : Option ToolCall) (resume : Bool) (inputs : List String),
      lastToolCall hm.history = none →
      ∀ tc, lastToolCall (runLoop streams hm sc resume inputs).hm.history = some tc →
        (runLoop streams hm sc resume inputs).sidecar = some tc := by
  induction streams with
  | nil =>
    intro hm sc resume inputs hpre tc htc
    cases hlp : loopPre hm resume inputs with
    | panic =>
      rw [runLoop_nil_panic hm sc resume inputs hlp] at htc
      simp [hpre] at htc
    | ended hm1 rest =>
      rw [runLoop_nil_ended hm sc resume inputs hm1 rest hlp] at htc
      rw [loopPre_ended_eq hm resume inputs hm1 rest hlp] at htc
      simp [hpre] at htc
    | request hm1 inputs1 =>
      rw [runLoop_nil_request hm sc resume inputs hm1 inputs1 hlp] at htc
      have h1 := loopPre_request_lastToolCall hm resume inputs hm1 inputs1 hlp hpre
      simp [h1] at htc
  | cons s ss ih =>
    intro hm sc resume inputs hpre tc htc
    cases hlp : loopPre hm resume inputs with
    | panic =>
      rw [runLoop_cons_panic s ss hm sc resume inputs hlp] at htc
      simp [hpre] at htc
    | ended hm1 rest =>
      rw [runLoop_cons_ended s ss hm sc resume inputs hm1 rest hlp] at htc
      rw [loopPre_ended_eq hm resume inputs hm1 rest hlp] at htc
      simp [hpre] at htc
    | request hm1 inputs1 =>
      have h1 : lastToolCall hm1.history = none :=
        loopPre_request_lastToolCall hm resume inputs hm1 inputs1 hlp hpre
      cases s with
      | error e =>
        rw [runLoop_err_request e ss hm sc resume inputs hm1 inputs1 hlp] at htc
        simp [h1] at htc
      | ok items =>
        have hinv := runStream_toolCall_inv items hm1 sc h1
        cases hrs : runStream hm1 sc items with
        | mk hm2 sc2 out rem =>
          rw [hrs] at hinv
          cases out with
          | endedToolCall =>
            rw [runLoop_ok_request_toolCall items ss hm sc resume inputs hm1 inputs1
              hm2 sc2 rem hlp hrs] at htc ⊢
            exact hinv.1 tc htc
          | panicked =>
            rw [runLoop_ok_request_panicked items ss hm sc resume inputs hm1 inputs1
              hm2 sc2 rem hlp hrs] at htc ⊢
            exact hinv.1 tc htc
          | awaitingInput =>
            have h2 : lastToolCall hm2.history = none := hinv.2 rfl
            rw [runLoop_ok_request_awaiting items ss hm sc resume inputs hm1 inputs1
              hm2 sc2 rem hlp hrs] at htc ⊢
            exact ih hm2 sc2 false inputs1 h2 tc htc

theorem runLoop_requests_nonempty (streams : List (Except String (List StreamItem))) :
    ∀ (hm : HistoryManager) (sc : Option ToolCall) (resume : Bool) (inputs : List String),
      (resume = true → hm.history ≠ []) →
      ∀ q ∈ (runLoop streams hm sc resume inputs).requests, q.history ≠ [] := by
  induction streams with
  | nil =>
    intro hm sc resume inputs hpre q hq
    cases hlp : loopPre hm resume inputs with
    | panic => rw [runLoop_nil_panic hm sc resume inputs hlp] at hq; simp at hq
    | ended hm1 rest =>
      rw [runLoop_nil_ended hm sc resume inputs hm1 rest hlp] at hq; simp at hq
    | request hm1 inputs1 =>
      rw [runLoop_nil_request hm sc resume inputs hm1 inputs1 hlp] at hq
      simp at hq
      rw [hq]
      exact loopPre_request_nonempty hm resume inputs hm1 inputs1 hlp hpre
  | cons s ss ih =>
    intro hm sc resume inputs hpre q hq
    cases hlp : loopPre hm resume inputs with
    | panic => rw [runLoop_cons_panic s ss hm sc resume inputs hlp] at hq; simp at hq
    | ended hm1 rest =>
      rw [runLoop_cons_ended s ss hm sc resume inputs hm1 rest hlp] at hq; simp at hq
    | request hm1 inputs1 =>
      have h1 : hm1.history ≠ [] :=
        loopPre_request_nonempty hm resume inputs hm1 inputs1 hlp hpre
      cases s with
      | error e =>
        rw [runLoop_err_request e ss hm sc resume inputs hm1 inputs1 hlp] at hq
        simp at hq
        rw [hq]; exact h1
      | ok items =>
        cases hrs : runStream hm1 sc items with
        | mk hm2 sc2 out rem =>
          cases out with
          | endedToolCall =>
            rw [runLoop_ok_request_toolCall items ss hm sc resume inputs hm1 inputs1
              hm2 sc2 rem hlp hrs] at hq
            simp at hq
            rw [hq]; exact h1
          | panicked =>
            rw [runLoop_ok_request_panicked items ss hm sc resume inputs hm1 inputs1
              hm2 sc2 rem hlp hrs] at hq
            simp at hq
            rw [hq]; exact h1
          | awaitingInput =>
            rw [runLoop_ok_request_awaiting items ss hm sc resume inputs hm1 inputs1
              hm2 sc2 rem hlp hrs] at hq
            simp at hq
            rcases hq with hq | hq
            · rw [hq]; exact h1
            · exact ih hm2 sc2 false inputs1 (fun h => nomatch h) q hq

theorem get_history_ne_none (hm : HistoryManager) (h : hm.history ≠ []) :
    hm.get_history ≠ none := by
  cases hh : hm.history with
  | nil => exact absurd hh h
  | cons m ms => simp [HistoryManager.get_history, OneOrMany.many, hh]

/-- C5: for every Message value m of the message model (user text, user
tool-result, assistant text, assistant tool-call), deserializing the
serialized line-delimited form of m yields m again:
deserialize(serialize(m)) == m. -/
theorem c5_message_roundtrip (m : Message) :
    deserializeMessage (serializeMessage m) = some m :=
  deserializeMessage_roundtrip m

/-- C6: for every finite sequence of messages appended via the history
store write path, a subsequent load of the written lines returns exactly
that sequence in the same order (one message per line, nothing dropped or
reordered), and the in-memory history agrees. -/
theorem c6_append_then_load (ms : List Message) :
    loadHistory ((HistoryManager.new.appendAll ms).writer) = some ms ∧
    (HistoryManager.new.appendAll ms).history = ms := by
  constructor
  · rw [appendAll_writer]
    simpa [HistoryManager.new] using loadHistory_map_serialize ms
  · rw [appendAll_history]
    simp [HistoryManager.new]

/-- C8: if the persisted store contains at least one line that fails to
parse as a Message, the load fails as a whole (the per-line unwrap
panics) and yields no partial transcript. -/
theorem c8_corrupt_line_fails_load (lines : List Json)
    (h : ∃ l ∈ lines, deserializeMessage l = none) :
    loadHistory lines = none := by
  induction lines with
  | nil => simp at h
  | cons l ls ih =>
    rcases h with ⟨l0, hmem, hbad⟩
    rcases List.mem_cons.mp hmem with heq | hmem2
    · rw [heq] at hbad
      cases hload : loadHistory ls <;> simp [loadHistory, hbad, hload]
    · have hnone := ih ⟨l0, hmem2, hbad⟩
      cases hd : deserializeMessage l <;> simp [loadHistory, hd, hnone]

/-- Concrete store contents with one malformed line, for the C8 witness. -/
def c8BadLines : List Json :=
  [serializeMessage (Message.user (OneOrMany.one (UserContent.text ⟨"hello"⟩))),
   Json.str "garbage"]

theorem c8_corrupt_line_fails_load_witness :
    (∃ l ∈ c8BadLines, deserializeMessage l = none) ∧ loadHistory c8BadLines = none :=
  ⟨⟨Json.str "garbage", by simp [c8BadLines], rfl⟩,
   c8_corrupt_line_fails_load c8BadLines ⟨Json.str "garbage", by simp [c8BadLines], rfl⟩⟩

/-- C9: a blank (empty or all-whitespace) input line at the prompt ends the
loop with no message appended; a non-blank line is appended as a UserText
message before the completion request is issued. -/
theorem c9_blank_input_ends (streams : List (Except String (List StreamItem)))
    (hm : HistoryManager) (sc : Option ToolCall) (line : String) (restIn : List String) :
    (trimIsEmpty line = true →
      runLoop streams hm sc false (line :: restIn) = ⟨hm, sc, [], RunOutcome.endedBlank⟩)
  ∧ (trimIsEmpty line = false →
      loopPre hm false (line :: restIn) =
        PreResult.request (hm.add_user_message line) restIn
      ∧ (hm.add_user_message line).history =
          hm.history ++ [Message.user (OneOrMany.one (UserContent.text ⟨line⟩))]) := by
  constructor
  · intro hb
    have hlp : loopPre hm false (line :: restIn) = PreResult.ended hm restIn := by
      simp [loopPre, hb]
    cases streams with
    | nil => exact runLoop_nil_ended hm sc false (line :: restIn) hm restIn hlp
    | cons s ss => exact runLoop_cons_ended s ss hm sc false (line :: restIn) hm restIn hlp
  · intro hb
    exact ⟨by simp [loopPre, hb], by
      simp [HistoryManager.add_user_message, HistoryManager.appendMessage]⟩

theorem c9_blank_input_ends_witness :
    runLoop [] HistoryManager.new none false [""] =
      ⟨HistoryManager.new, none, [], RunOutcome.endedBlank⟩
  ∧ loopPre HistoryManager.new false ["hi"] =
      PreResult.request (HistoryManager.new.add_user_message "hi") [] :=
  ⟨(c9_blank_input_ends [] HistoryManager.new none "" []).1 rfl,
   ((c9_blank_input_ends [] HistoryManager.new none "hi" []).2 rfl).1⟩

/-- C2: a turn whose chunk stream begins with a ToolCall chunk appends
exactly one AssistantToolCall message, records the call in the sidecar,
and ends the turn and the process without consuming any further chunk of
that stream. -/
theorem c2_tool_call_chunk_ends_turn (hm : HistoryManager) (sc : Option ToolCall)
    (call : ToolCall) (rest : List StreamItem)
    (restStreams : List (Except String (List StreamItem))) (inputs : List String) :
    runStream hm sc (StreamItem.ok (StreamedAssistantContent.toolCall call) :: rest) =
      ⟨hm.appendMessage (Message.assistant none (OneOrMany.one (AssistantContent.toolCall call))),
       some call, StreamOutcome.endedToolCall, rest⟩
  ∧ (hm.appendMessage
        (Message.assistant none (OneOrMany.one (AssistantContent.toolCall call)))).history
      = hm.history ++ [Message.assistant none (OneOrMany.one (AssistantContent.toolCall call))]
  ∧ runLoop (Except.ok (StreamItem.ok (StreamedAssistantContent.toolCall call) :: rest)
          :: restStreams) hm sc true inputs =
      ⟨hm.appendMessage (Message.assistant none (OneOrMany.one (AssistantContent.toolCall call))),
       some call, [hm], RunOutcome.endedToolCall⟩ := by
  refine ⟨rfl, rfl, ?_⟩
  exact runLoop_ok_request_toolCall
    (StreamItem.ok (StreamedAssistantContent.toolCall call) :: rest) restStreams hm sc true
    inputs hm inputs
    (hm.appendMessage (Message.assistant none (OneOrMany.one (AssistantContent.toolCall call))))
    (some call) rest rfl rfl

/-- C7: a turn whose chunk stream is Text a, Text b, Final appends exactly
two AssistantText messages in stream order (the Final chunk appends
nothing) and ends the turn back at the input prompt. -/
theorem c7_two_texts_then_final (hm : HistoryManager) (sc : Option ToolCall) (a b : String) :
    runStream hm sc [StreamItem.ok (StreamedAssistantContent.text ⟨a⟩),
        StreamItem.ok (StreamedAssistantContent.text ⟨b⟩),
        StreamItem.ok StreamedAssistantContent.final] =
      ⟨(hm.appendMessage
          (Message.assistant none (OneOrMany.one (AssistantContent.text ⟨a⟩)))).appendMessage
          (Message.assistant none (OneOrMany.one (AssistantContent.text ⟨b⟩))),
       sc, StreamOutcome.awaitingInput, []⟩
  ∧ ((hm.appendMessage
        (Message.assistant none (OneOrMany.one (AssistantContent.text ⟨a⟩)))).appendMessage
        (Message.assistant none (OneOrMany.one (AssistantContent.text ⟨b⟩)))).history
      = hm.history ++ [Message.assistant none (OneOrMany.one (AssistantContent.text ⟨a⟩)),
          Message.assistant none (OneOrMany.one (AssistantContent.text ⟨b⟩))] := by
  refine ⟨rfl, ?_⟩
  simp [HistoryManager.appendMessage]

/-- C4 counterexample: the claim that an error item in the chunk stream
never leads back to the input prompt is false: a stream consisting of a
single error item ends the chunk loop silently and returns to the prompt. -/
theorem c4_stream_error_counterexample :
    ¬ (∀ (hm : HistoryManager) (sc : Option ToolCall) (items : List StreamItem),
        (∃ e, StreamItem.err e ∈ items) →
        (runStream hm sc items).outcome ≠ StreamOutcome.awaitingInput) := by
  intro hall
  exact hall HistoryManager.new none [StreamItem.err "connection reset"]
    ⟨"connection reset", by simp⟩ rfl

/-- C4 amended: an error from the completion call itself is fatal (the
unwrap panics), but a mid-stream error item silently ends the chunk loop:
the text chunks before it are appended, the error and everything after it
are dropped, and the machine returns to the input prompt as if the turn
had completed normally. -/
theorem c4_error_handling_amended (hm : HistoryManager) (sc : Option ToolCall)
    (inputs : List String) (e : String)
    (restStreams : List (Except String (List StreamItem)))
    (texts : List Text) (rest : List StreamItem) :
    (runLoop (Except.error e :: restStreams) hm sc true inputs).outcome = RunOutcome.panicked
  ∧ runStream hm sc
        ((texts.map fun t => StreamItem.ok (StreamedAssistantContent.text t)) ++
          StreamItem.err e :: rest) =
      ⟨texts.foldl (fun h t =>
          h.appendMessage (Message.assistant none (OneOrMany.one (AssistantContent.text t)))) hm,
       sc, StreamOutcome.awaitingInput, rest⟩ := by
  constructor
  · rw [runLoop_err_request e restStreams hm sc true inputs hm inputs rfl]
  · induction texts generalizing hm with
    | nil => rfl
    | cons t ts ih =>
      simp only [List.map_cons, List.cons_append, List.foldl_cons]
      simpa [runStream, HistoryManager.handle_completion] using
        ih (hm.appendMessage (Message.assistant none (OneOrMany.one (AssistantContent.text t))))

/-- C1: when the loaded transcript ends in an assistant tool-call message,
startup appends exactly one UserToolResult message with the same call_id
and id, and the next completion request is issued without consuming any
user input (the prompt is skipped for that one turn). -/
theorem c1_restart_resume (hm : HistoryManager) (tc : ToolCall) (result : String)
    (inputs : List String) (streams : List (Except String (List StreamItem)))
    (sc : Option ToolCall)
    (h : lastToolCall hm.history = some tc) :
    startupResume hm (some result) =
      some (hm.handle_tool_call_result
        ⟨tc.id, tc.call_id, OneOrMany.one (ToolResultContent.text ⟨result⟩)⟩, true)
  ∧ (hm.handle_tool_call_result
        ⟨tc.id, tc.call_id, OneOrMany.one (ToolResultContent.text ⟨result⟩)⟩).history
      = hm.history ++ [Message.user (OneOrMany.one (UserContent.toolResult
          ⟨tc.id, tc.call_id, OneOrMany.one (ToolResultContent.text ⟨result⟩)⟩))]
  ∧ loopPre (hm.handle_tool_call_result
        ⟨tc.id, tc.call_id, OneOrMany.one (ToolResultContent.text ⟨result⟩)⟩) true inputs
      = PreResult.request (hm.handle_tool_call_result
          ⟨tc.id, tc.call_id, OneOrMany.one (ToolResultContent.text ⟨result⟩)⟩) inputs
  ∧ (runLoop streams (hm.handle_tool_call_result
        ⟨tc.id, tc.call_id, OneOrMany.one (ToolResultContent.text ⟨result⟩)⟩)
        sc true inputs).requests.head?
      = some (hm.handle_tool_call_result
          ⟨tc.id, tc.call_id, OneOrMany.one (ToolResultContent.text ⟨result⟩)⟩) := by
  refine ⟨by simp [startupResume, h], rfl, rfl, ?_⟩
  set hm1 := hm.handle_tool_call_result
    ⟨tc.id, tc.call_id, OneOrMany.one (ToolResultContent.text ⟨result⟩)⟩
  cases streams with
  | nil =>
    rw [runLoop_nil_request hm1 sc true inputs hm1 inputs rfl]
    rfl
  | cons s ss =>
    cases s with
    | error e =>
      rw [runLoop_err_request e ss hm1 sc true inputs hm1 inputs rfl]
      rfl
    | ok items =>
      cases hrs : runStream hm1 sc items with
      | mk hm2 sc2 out rem =>
        cases out with
        | endedToolCall =>
          rw [runLoop_ok_request_toolCall items ss hm1 sc true inputs hm1 inputs
            hm2 sc2 rem rfl hrs]
          rfl
        | panicked =>
          rw [runLoop_ok_request_panicked items ss hm1 sc true inputs hm1 inputs
            hm2 sc2 rem rfl hrs]
          rfl
        | awaitingInput =>
          rw [runLoop_ok_request_awaiting items ss hm1 sc true inputs hm1 inputs
            hm2 sc2 rem rfl hrs]
          rfl

theorem c1_restart_resume_witness :
    startupResume ⟨[], [exAsstMsg]⟩ (some "sunny") =
      some ((⟨[], [exAsstMsg]⟩ : HistoryManager).handle_tool_call_result
        ⟨"id1", some "call1", OneOrMany.one (ToolResultContent.text ⟨"sunny"⟩)⟩, true) :=
  (c1_restart_resume ⟨[], [exAsstMsg]⟩ exCall "sunny" [] [] none rfl).1

/-- C10: OneOrMany::many(history).unwrap() in get_history panics exactly
when the history is empty, and that branch is unreachable: in every run of
the program, every history snapshot passed to a completion request is
non-empty. -/
theorem c10_get_history_safe :
    (∀ hm : HistoryManager, hm.history = [] → hm.get_history = none)
  ∧ (∀ (fileLines : List Json) (toolFile : Option String) (sc : Option ToolCall)
        (inputs : List String) (streams : List (Except String (List StreamItem)))
        (res : LoopResult),
      mainRun fileLines toolFile sc inputs streams = some res →
      ∀ q ∈ res.requests, q.get_history ≠ none) := by
  constructor
  · intro hm h
    simp [HistoryManager.get_history, h, OneOrMany.many]
  · intro fileLines toolFile sc inputs streams res hrun q hq
    unfold mainRun at hrun
    cases hload : loadHistory fileLines with
    | none => rw [hload] at hrun; exact absurd hrun (by simp)
    | some msgs =>
      rw [hload] at hrun
      have hrun2 : (match startupResume (HistoryManager.new_with_history msgs) toolFile with
          | none => none
          | some (hm1, resume) => some (runLoop streams hm1 sc resume inputs)) = some res := hrun
      cases hsr : startupResume (HistoryManager.new_with_history msgs) toolFile with
      | none => rw [hsr] at hrun2; exact absurd hrun2 (by simp)
      | some pr =>
        rw [hsr] at hrun2
        obtain ⟨hm1, resume⟩ := pr
        have hrun' : runLoop streams hm1 sc resume inputs = res := by
          simpa using hrun2
        have hres : resume = true → hm1.history ≠ [] := by
          intro hr
          subst hr
          unfold startupResume at hsr
          cases hlast : lastToolCall (HistoryManager.new_with_history msgs).history with
          | none => rw [hlast] at hsr; simp at hsr
          | some tc0 =>
            rw [hlast] at hsr
            cases toolFile with
            | none => simp at hsr
            | some result =>
              simp at hsr
              rw [← hsr]
              simp [HistoryManager.handle_tool_call_result, HistoryManager.appendMessage]
        have hne := runLoop_requests_nonempty streams hm1 sc resume inputs hres q
          (by rw [hrun']; exact hq)
        exact get_history_ne_none q hne

/-- Concrete request-time history snapshot for the C10 witness. -/
def c10hm : HistoryManager := (HistoryManager.new_with_history []).add_user_message "hi"

/-- Concrete run result for the C10 witness. -/
def c10res : LoopResult := ⟨c10hm, none, [c10hm], RunOutcome.panicked⟩

theorem c10_get_history_safe_witness :
    HistoryManager.new.get_history = none ∧ c10hm.get_history ≠ none :=
  ⟨c10_get_history_safe.1 HistoryManager.new rfl,
   c10_get_history_safe.2 [] none none ["hi"]
     [Except.ok [StreamItem.ok StreamedAssistantContent.final]] c10res rfl c10hm
     (by simp [c10res])⟩

/-- C3 amended: at every reachable persistent state, if the transcript
ends in an unanswered assistant tool call then the sidecar holds exactly
that call; the converse direction fails because the sidecar file is never
deleted. -/
theorem c3_pending_forward (h : List Message) (sc : Option ToolCall)
    (hr : Reachable h sc) :
    ∀ tc, lastToolCall h = some tc → sc = some tc := by
  induction hr with
  | init => intro tc htc; simp [lastToolCall] at htc
  | run h0 sc0 result inputs streams res hreach hrun ih =>
    intro tc htc
    unfold runOnce at hrun
    have hrun2 : (match startupResume (HistoryManager.new_with_history h0)
          (if sc0.isSome then some result else none) with
        | none => none
        | some (hm1, resume) => some (runLoop streams hm1 sc0 resume inputs)) =
          some res := hrun
    cases hlast : lastToolCall h0 with
    | none =>
      have hsr : startupResume (HistoryManager.new_with_history h0)
          (if sc0.isSome then some result else none) =
            some (HistoryManager.new_with_history h0, false) := by
        simp [startupResume, HistoryManager.new_with_history, hlast]
      rw [hsr] at hrun2
      have hres : runLoop streams (HistoryManager.new_with_history h0) sc0 false inputs
          = res := by simpa using hrun2
      rw [← hres] at htc ⊢
      exact runLoop_toolCall_inv streams (HistoryManager.new_with_history h0) sc0 false
        inputs hlast tc htc
    | some tc0 =>
      have hsc0 : sc0 = some tc0 := ih tc0 hlast
      have hm1def : startupResume (HistoryManager.new_with_history h0)
          (if sc0.isSome then some result else none) =
            some ((HistoryManager.new_with_history h0).handle_tool_call_result
              ⟨tc0.id, tc0.call_id, OneOrMany.one (ToolResultContent.text ⟨result⟩)⟩, true) := by
        simp [startupResume, HistoryManager.new_with_history, hlast, hsc0]
      rw [hm1def] at hrun2
      have hres : runLoop streams
          ((HistoryManager.new_with_history h0).handle_tool_call_result
            ⟨tc0.id, tc0.call_id, OneOrMany.one (ToolResultContent.text ⟨result⟩)⟩)
          sc0 true inputs = res := by simpa using hrun2
      have hpre : lastToolCall
          ((HistoryManager.new_with_history h0).handle_tool_call_result
            ⟨tc0.id, tc0.call_id, OneOrMany.one (ToolResultContent.text ⟨result⟩)⟩).history
          = none := by
        simp [HistoryManager.handle_tool_call_result, HistoryManager.appendMessage,
          HistoryManager.new_with_history, lastToolCall_append, msgToolCall]
      rw [← hres] at htc ⊢
      exact runLoop_toolCall_inv streams _ sc0 true inputs hpre tc htc

theorem c3_pending_forward_witness : exRes1.sidecar = some exCall :=
  c3_pending_forward exRes1.hm.history exRes1.sidecar
    (Reachable.run [] none "x" ["hi"]
      [Except.ok [StreamItem.ok (StreamedAssistantContent.toolCall exCall)]] exRes1
      Reachable.init rfl)
    exCall rfl

/-- C3 counterexample: the claimed biconditional — a PendingCall exists in
the sidecar if and only if the transcript ends in an unanswered assistant
tool call — is false at a reachable state: after a run that resumes from a
recorded call and appends the tool result, the transcript no longer ends
in a tool call, yet the sidecar record still exists (it is never
deleted). -/
theorem c3_pending_iff_counterexample :
    ¬ (∀ (h : List Message) (sc : Option ToolCall), Reachable h sc →
        (sc.isSome = true ↔ (lastToolCall h).isSome = true)) := by
  intro hall
  have hreach1 : Reachable exRes1.hm.history exRes1.sidecar :=
    Reachable.run [] none "x" ["hi"]
      [Except.ok [StreamItem.ok (StreamedAssistantContent.toolCall exCall)]] exRes1
      Reachable.init rfl
  have hreach2 : Reachable exRes2.hm.history exRes2.sidecar :=
    Reachable.run exRes1.hm.history exRes1.sidecar "sunny" [""]
      [Except.ok [StreamItem.ok StreamedAssistantContent.final]] exRes2
      hreach1 rfl
  have h1 : (lastToolCall exRes2.hm.history).isSome = true :=
    (hall exRes2.hm.history exRes2.sidecar hreach2).mp rfl
  have h2 : (lastToolCall exRes2.hm.history).isSome = false := rfl
  rw [h1] at h2
  exact Bool.noConfusion h2

end LlmCont
